import Mathlib

set_option linter.unusedVariables false

/-!
Verification of the OAuth broker core of the MCP_Server repository.

The development shallowly embeds the two HTTP handlers that the claims are
about — the primary (GitHub) `/callback` route of `src/auth/github-handler.ts`
and the secondary (Microsoft) routes of `src/auth/microsoft-handler.ts` —
together with the JavaScript builtins they lean on (`btoa`/`atob`,
`JSON.stringify`/`JSON.parse`, `decodeURIComponent`), an explicit KV-store
state, and oracles for the network calls.  Machine integers are modelled as
`Int`/`Nat`; fallible operations return `Option`/`Except`.
-/

namespace MCP

/-! ## JSON values

Model of the JavaScript JSON data manipulated by the handlers.  Numbers are
modelled as integers (the state records serialised by the handlers carry
strings, arrays and integer timestamps); object fields are an ordered
association list. -/

inductive Json where
  | null : Json
  | bool (b : Bool) : Json
  | num (n : Int) : Json
  | str (s : String) : Json
  | arr (elems : List Json) : Json
  | obj (fields : List (String × Json)) : Json

/-- The `{` character, kept out of character literals. -/
def lbrace : Char := Char.ofNat 123

/-- The `}` character, kept out of character literals. -/
def rbrace : Char := Char.ofNat 125

/-- Lower-case hexadecimal digit for a value below 16. -/
def hexDig (n : Nat) : Char :=
  if n < 10 then Char.ofNat (48 + n) else Char.ofNat (87 + n)

/-- Decimal digit character. -/
def digitChar (n : Nat) : Char := Char.ofNat (48 + n)

/-- Decimal digits of a natural number, most significant first
(model of the decimal printing used by `JSON.stringify` on integers). -/
def natChars (n : Nat) : List Char :=
  if n < 10 then [digitChar n]
  else natChars (n / 10) ++ [digitChar (n % 10)]
decreasing_by exact Nat.div_lt_self (by omega) (by omega)

/-- Characters of an integer in the decimal format emitted by
`JSON.stringify`. -/
def intChars (n : Int) : List Char :=
  if n < 0 then '-' :: natChars n.natAbs else natChars n.toNat

/-- Escape of one character inside a JSON string literal, following
`JSON.stringify`: quote, backslash and the named control characters get a
two-character escape, the remaining control characters get a `\u00xx`
escape, and everything else is emitted verbatim. -/
def escChar (c : Char) : List Char :=
  if c = '"' then ['\\', '"']
  else if c = '\\' then ['\\', '\\']
  else if c = '\n' then ['\\', 'n']
  else if c = '\t' then ['\\', 't']
  else if c = '\r' then ['\\', 'r']
  else if c.toNat = 8 then ['\\', 'b']
  else if c.toNat = 12 then ['\\', 'f']
  else if c.toNat < 32 then
    ['\\', 'u', '0', '0', hexDig (c.toNat / 16), hexDig (c.toNat % 16)]
  else [c]

/-- Escape of a whole string body (no surrounding quotes). -/
def escStr : List Char → List Char
  | [] => []
  | c :: cs => escChar c ++ escStr cs

mutual

/-- Model of `JSON.stringify` (no spacing), producing the character list of
the serialised value. -/
def jStr : Json → List Char
  | .null => "null".data
  | .bool true => "true".data
  | .bool false => "false".data
  | .num n => intChars n
  | .str s => '"' :: (escStr s.data ++ ['"'])
  | .arr xs => '[' :: (jStrElems xs ++ [']'])
  | .obj fs => lbrace :: (jStrFields fs ++ [rbrace])

/-- Comma-separated serialisation of array elements. -/
def jStrElems : List Json → List Char
  | [] => []
  | [x] => jStr x
  | x :: y :: xs => jStr x ++ ',' :: jStrElems (y :: xs)

/-- Comma-separated serialisation of object fields. -/
def jStrFields : List (String × Json) → List Char
  | [] => []
  | [(k, v)] => '"' :: (escStr k.data ++ '"' :: ':' :: jStr v)
  | (k, v) :: f :: fs =>
      ('"' :: (escStr k.data ++ '"' :: ':' :: jStr v)) ++ ',' :: jStrFields (f :: fs)

end

/-- Character list of the `null` keyword. -/
theorem nullData : "null".data = 'n' :: ['u', 'l', 'l'] := rfl

/-- Character list of the `true` keyword. -/
theorem trueData : "true".data = 't' :: ['r', 'u', 'e'] := rfl

/-- Character list of the `false` keyword. -/
theorem falseData : "false".data = 'f' :: ['a', 'l', 's', 'e'] := rfl

/-! ## Model of `JSON.parse`

A recursive-descent parser over the character list, with a fuel argument
bounded by the input length (each recursive step consumes at least one
character).  It covers the whitespace-free grammar that `JSON.stringify`
emits — exactly the forms carried in the state parameters of the handlers — and
returns `none` where the builtin would throw a `SyntaxError`. -/

/-- Value of one hexadecimal digit, either case (as accepted by
`JSON.parse` in `\uXXXX` escapes). -/
def hexVal (c : Char) : Option Nat :=
  let n := c.toNat
  if 48 ≤ n ∧ n ≤ 57 then some (n - 48)
  else if 97 ≤ n ∧ n ≤ 102 then some (n - 87)
  else if 65 ≤ n ∧ n ≤ 70 then some (n - 55)
  else none

/-- Parse the body of a JSON string literal (the opening quote already
consumed), returning the unescaped characters and the rest of the input. -/
def parseStringBody : List Char → Option (List Char × List Char)
  | [] => none
  | c :: rest =>
    if c = '"' then some ([], rest)
    else if c = '\\' then
      match rest with
      | [] => none
      | e :: rest2 =>
        if e = '"' then (parseStringBody rest2).map fun p => ('"' :: p.1, p.2)
        else if e = '\\' then (parseStringBody rest2).map fun p => ('\\' :: p.1, p.2)
        else if e = '/' then (parseStringBody rest2).map fun p => ('/' :: p.1, p.2)
        else if e = 'n' then (parseStringBody rest2).map fun p => ('\n' :: p.1, p.2)
        else if e = 't' then (parseStringBody rest2).map fun p => ('\t' :: p.1, p.2)
        else if e = 'r' then (parseStringBody rest2).map fun p => ('\r' :: p.1, p.2)
        else if e = 'b' then
          (parseStringBody rest2).map fun p => (Char.ofNat 8 :: p.1, p.2)
        else if e = 'f' then
          (parseStringBody rest2).map fun p => (Char.ofNat 12 :: p.1, p.2)
        else if e = 'u' then
          match rest2 with
          | h1 :: h2 :: h3 :: h4 :: rest3 =>
            match hexVal h1, hexVal h2, hexVal h3, hexVal h4 with
            | some a, some b, some cc, some d =>
              (parseStringBody rest3).map fun p =>
                (Char.ofNat (a * 4096 + b * 256 + cc * 16 + d) :: p.1, p.2)
            | _, _, _, _ => none
          | _ => none
        else none
    else (parseStringBody rest).map fun p => (c :: p.1, p.2)

/-- Longest digit run at the head of the input. -/
def takeDigits : List Char → List Char × List Char
  | [] => ([], [])
  | c :: rest =>
    if c.isDigit then
      let p := takeDigits rest
      (c :: p.1, p.2)
    else ([], c :: rest)

/-- Numeric value of a digit run. -/
def digitsVal (ds : List Char) : Nat :=
  ds.foldl (fun acc c => 10 * acc + (c.toNat - 48)) 0

/-- Parse a (non-negative, integral) JSON number at the head of the input. -/
def parseNumber (cs : List Char) : Option (Nat × List Char) :=
  match takeDigits cs with
  | ([], _) => none
  | (ds, rest) => some (digitsVal ds, rest)

mutual

/-- Parse one JSON value. -/
def parseVal : Nat → List Char → Option (Json × List Char)
  | 0, _ => none
  | fuel + 1, cs =>
    match cs with
    | [] => none
    | c :: rest =>
      if c = 'n' then
        if ['u', 'l', 'l'].isPrefixOf rest then some (.null, rest.drop 3) else none
      else if c = 't' then
        if ['r', 'u', 'e'].isPrefixOf rest then some (.bool true, rest.drop 3) else none
      else if c = 'f' then
        if ['a', 'l', 's', 'e'].isPrefixOf rest then some (.bool false, rest.drop 4)
        else none
      else if c = '"' then
        (parseStringBody rest).map fun p => (.str (String.mk p.1), p.2)
      else if c = '[' then parseArrTail fuel rest
      else if c = lbrace then parseObjTail fuel rest
      else if c = '-' then
        (parseNumber rest).map fun p => (.num (-(p.1 : Int)), p.2)
      else if c.isDigit then
        (parseNumber (c :: rest)).map fun p => (.num (p.1 : Int), p.2)
      else none

/-- Parse the remainder of an array after its `[`. -/
def parseArrTail (fuel : Nat) (cs : List Char) : Option (Json × List Char) :=
  match cs with
  | c :: rest =>
    if c = ']' then some (.arr [], rest)
    else (parseElems fuel (c :: rest)).map fun p => (.arr p.1, p.2)
  | [] => none

/-- Parse the remainder of an object after its opening brace. -/
def parseObjTail (fuel : Nat) (cs : List Char) : Option (Json × List Char) :=
  match cs with
  | c :: rest =>
    if c = rbrace then some (.obj [], rest)
    else (parseFields fuel (c :: rest)).map fun p => (.obj p.1, p.2)
  | [] => none

/-- Parse a non-empty comma-separated element list, consuming the closing
`]`. -/
def parseElems : Nat → List Char → Option (List Json × List Char)
  | 0, _ => none
  | fuel + 1, cs =>
    match parseVal fuel cs with
    | none => none
    | some (v, r) =>
      match r with
      | ',' :: r2 => (parseElems fuel r2).map fun p => (v :: p.1, p.2)
      | ']' :: r2 => some ([v], r2)
      | _ => none

/-- Parse a non-empty comma-separated field list, consuming the closing
brace. -/
def parseFields : Nat → List Char → Option (List (String × Json) × List Char)
  | 0, _ => none
  | fuel + 1, cs =>
    match cs with
    | '"' :: rest =>
      match parseStringBody rest with
      | none => none
      | some (k, r) =>
        match r with
        | ':' :: r2 =>
          match parseVal fuel r2 with
          | none => none
          | some (v, r3) =>
            match r3 with
            | ',' :: r4 =>
              (parseFields fuel r4).map fun p => ((String.mk k, v) :: p.1, p.2)
            | c :: r4 => if c = rbrace then some ([(String.mk k, v)], r4) else none
            | [] => none
        | _ => none
    | _ => none

end

/-- Model of `JSON.parse`: parse a complete value, requiring the whole
input to be consumed (trailing garbage is a `SyntaxError`, i.e. `none`). -/
def jsonParse (s : String) : Option Json :=
  match parseVal (s.data.length + 1) s.data with
  | some (v, []) => some v
  | _ => none

/-! ## Printer/parser inversion -/

/-- Converting a valid scalar value to a character and back is the
identity. -/
theorem charToNatOfNat (n : Nat) (h : n < 55296) : (Char.ofNat n).toNat = n := by
  simp [Char.ofNat, Char.toNat, Or.inl h, Char.ofNatAux, UInt32.toNat,
    BitVec.toNat_ofNatLt]

/-- The hexadecimal digit printer and reader are inverse. -/
theorem hexVal_hexDig : ∀ d : Nat, d < 16 → hexVal (hexDig d) = some d := by decide

theorem psb_quote (rest : List Char) :
    parseStringBody ('"' :: rest) = some ([], rest) := by
  rw [parseStringBody.eq_def]; simp

theorem psb_escQuote (cs : List Char) :
    parseStringBody ('\\' :: '"' :: cs)
      = (parseStringBody cs).map fun p => ('"' :: p.1, p.2) := by
  rw [parseStringBody.eq_def]; simp

theorem psb_escBackslash (cs : List Char) :
    parseStringBody ('\\' :: '\\' :: cs)
      = (parseStringBody cs).map fun p => ('\\' :: p.1, p.2) := by
  rw [parseStringBody.eq_def]; simp

theorem psb_escN (cs : List Char) :
    parseStringBody ('\\' :: 'n' :: cs)
      = (parseStringBody cs).map fun p => ('\n' :: p.1, p.2) := by
  rw [parseStringBody.eq_def]; simp

theorem psb_escT (cs : List Char) :
    parseStringBody ('\\' :: 't' :: cs)
      = (parseStringBody cs).map fun p => ('\t' :: p.1, p.2) := by
  rw [parseStringBody.eq_def]; simp

theorem psb_escR (cs : List Char) :
    parseStringBody ('\\' :: 'r' :: cs)
      = (parseStringBody cs).map fun p => ('\r' :: p.1, p.2) := by
  rw [parseStringBody.eq_def]; simp

theorem psb_escB (cs : List Char) :
    parseStringBody ('\\' :: 'b' :: cs)
      = (parseStringBody cs).map fun p => (Char.ofNat 8 :: p.1, p.2) := by
  rw [parseStringBody.eq_def]; simp

theorem psb_escF (cs : List Char) :
    parseStringBody ('\\' :: 'f' :: cs)
      = (parseStringBody cs).map fun p => (Char.ofNat 12 :: p.1, p.2) := by
  rw [parseStringBody.eq_def]; simp

theorem psb_escU (h1 h2 h3 h4 : Char) (cs : List Char) :
    parseStringBody ('\\' :: 'u' :: h1 :: h2 :: h3 :: h4 :: cs)
      = match hexVal h1, hexVal h2, hexVal h3, hexVal h4 with
        | some a, some b, some cc, some d =>
          (parseStringBody cs).map fun p =>
            (Char.ofNat (a * 4096 + b * 256 + cc * 16 + d) :: p.1, p.2)
        | _, _, _, _ => none := by
  rw [parseStringBody.eq_def]; simp

theorem psb_plain (c : Char) (cs : List Char) (h1 : ¬c = '"') (h2 : ¬c = '\\') :
    parseStringBody (c :: cs)
      = (parseStringBody cs).map fun p => (c :: p.1, p.2) := by
  rw [parseStringBody.eq_def]
  simp only [if_neg h1, if_neg h2]

/-- The string-literal escaper is inverted by the string-body parser. -/
theorem psb_escStr : ∀ (s rest : List Char),
    parseStringBody (escStr s ++ '"' :: rest) = some (s, rest)
  | [], rest => psb_quote rest
  | c :: cs, rest => by
    have ih := psb_escStr cs rest
    show parseStringBody ((escChar c ++ escStr cs) ++ '"' :: rest) = some (c :: cs, rest)
    rw [List.append_assoc]
    by_cases h1 : c = '"'
    · subst h1
      rw [show escChar '"' = ['\\', '"'] from by decide]
      simp only [List.cons_append, List.nil_append]
      rw [psb_escQuote, ih]
      rfl
    · by_cases h2 : c = '\\'
      · subst h2
        rw [show escChar '\\' = ['\\', '\\'] from by decide]
        simp only [List.cons_append, List.nil_append]
        rw [psb_escBackslash, ih]
        rfl
      · by_cases h3 : c = '\n'
        · subst h3
          rw [show escChar '\n' = ['\\', 'n'] from by decide]
          simp only [List.cons_append, List.nil_append]
          rw [psb_escN, ih]
          rfl
        · by_cases h4 : c = '\t'
          · subst h4
            rw [show escChar '\t' = ['\\', 't'] from by decide]
            simp only [List.cons_append, List.nil_append]
            rw [psb_escT, ih]
            rfl
          · by_cases h5 : c.toNat = 8
            · have hc : c = Char.ofNat 8 := by rw [← h5, Char.ofNat_toNat]
              subst hc
              rw [show escChar (Char.ofNat 8) = ['\\', 'b'] from by decide]
              simp only [List.cons_append, List.nil_append]
              rw [psb_escB, ih]
              rfl
            · by_cases h6 : c.toNat = 12
              · have hc : c = Char.ofNat 12 := by rw [← h6, Char.ofNat_toNat]
                subst hc
                rw [show escChar (Char.ofNat 12) = ['\\', 'f'] from by decide]
                simp only [List.cons_append, List.nil_append]
                rw [psb_escF, ih]
                rfl
              · by_cases h7 : c = '\r'
                · subst h7
                  rw [show escChar '\r' = ['\\', 'r'] from by decide]
                  simp only [List.cons_append, List.nil_append]
                  rw [psb_escR, ih]
                  rfl
                · by_cases h8 : c.toNat < 32
                  · have he : escChar c = ['\\', 'u', '0', '0',
                        hexDig (c.toNat / 16), hexDig (c.toNat % 16)] := by
                      unfold escChar
                      rw [if_neg h1, if_neg h2, if_neg h3, if_neg h4, if_neg h5,
                        if_neg h6, if_neg h7, if_pos h8]
                    rw [he]
                    simp only [List.cons_append, List.nil_append]
                    have hdiv : c.toNat / 16 < 16 := by omega
                    have hmod : c.toNat % 16 < 16 := by omega
                    rw [psb_escU]
                    rw [show hexVal '0' = some 0 from by decide,
                      hexVal_hexDig _ hdiv, hexVal_hexDig _ hmod]
                    have harith : 0 * 4096 + 0 * 256 + c.toNat / 16 * 16 + c.toNat % 16
                        = c.toNat := by omega
                    dsimp only
                    rw [harith, Char.ofNat_toNat, ih]
                    rfl
                  · have he : escChar c = [c] := by
                      unfold escChar
                      rw [if_neg h1, if_neg h2, if_neg h3, if_neg h4, if_neg h5,
                        if_neg h6, if_neg h7, if_neg h8]
                    rw [he]
                    simp only [List.cons_append, List.nil_append]
                    rw [psb_plain c _ h1 h2, ih]
                    rfl

/-- A string follows its character list. -/
theorem stringMkData (s : String) : String.mk s.data = s := rfl

/-- The input may continue after a serialised value with any character that
cannot extend a decimal number. -/
def delimOk : List Char → Prop
  | [] => True
  | c :: _ => c.isDigit = false

/-- A non-digit character heads a number-delimiting rest. -/
theorem delimOk_cons (c : Char) (r : List Char) (h : c.isDigit = false) :
    delimOk (c :: r) := h

/-- Decimal digit characters are digits. -/
theorem digitChar_isDigit (n : Nat) (h : n < 10) : (digitChar n).isDigit = true := by
  interval_cases n <;> decide

/-- Numeric value of a decimal digit character. -/
theorem digitChar_toNat (n : Nat) (h : n < 10) : (digitChar n).toNat = 48 + n :=
  charToNatOfNat (48 + n) (by omega)

/-- Decimal printing never produces the empty list. -/
theorem natChars_ne_nil (n : Nat) : natChars n ≠ [] := by
  rw [natChars.eq_def]
  split
  · simp
  · simp

/-- Every character of a printed natural number is a digit. -/
theorem natChars_digits (n : Nat) : ∀ c ∈ natChars n, c.isDigit = true := by
  induction n using Nat.strong_induction_on with
  | _ n ih =>
    rw [natChars.eq_def]
    split
    · intro c hc
      simp only [List.mem_singleton] at hc
      subst hc
      exact digitChar_isDigit n (by omega)
    · intro c hc
      rename_i hge
      rw [List.mem_append] at hc
      rcases hc with hc | hc
      · exact ih (n / 10) (Nat.div_lt_self (by omega) (by omega)) c hc
      · simp only [List.mem_singleton] at hc
        subst hc
        exact digitChar_isDigit _ (Nat.mod_lt _ (by omega))

/-- Decimal printing starts with a digit character. -/
theorem natChars_cons (n : Nat) :
    ∃ c t, natChars n = c :: t ∧ c.isDigit = true := by
  cases h : natChars n with
  | nil => exact absurd h (natChars_ne_nil n)
  | cons c t =>
    refine ⟨c, t, rfl, ?_⟩
    exact natChars_digits n c (h ▸ List.mem_cons_self c t)

/-- A digit run followed by a non-digit is split back off unchanged. -/
theorem takeDigits_append : ∀ (ds rest : List Char),
    (∀ c ∈ ds, c.isDigit = true) → delimOk rest →
    takeDigits (ds ++ rest) = (ds, rest)
  | [], rest, _, hr => by
    cases rest with
    | nil => rfl
    | cons c t =>
      simp only [delimOk] at hr
      simp [takeDigits, hr]
  | d :: ds, rest, hds, hr => by
    have hd : d.isDigit = true := hds d (List.mem_cons_self d ds)
    have ih := takeDigits_append ds rest (fun c hc => hds c (List.mem_cons_of_mem d hc)) hr
    simp [takeDigits, hd, ih]

/-- Reading back the decimal print of a natural number gives the number. -/
theorem digitsVal_natChars (n : Nat) : digitsVal (natChars n) = n := by
  induction n using Nat.strong_induction_on with
  | _ n ih =>
    rw [natChars.eq_def]
    split
    · rename_i hlt
      simp only [digitsVal, List.foldl_cons, List.foldl_nil]
      rw [digitChar_toNat n hlt]
      omega
    · rename_i hge
      have ihd := ih (n / 10) (Nat.div_lt_self (by omega) (by omega))
      simp only [digitsVal, List.foldl_append, List.foldl_cons, List.foldl_nil]
      simp only [digitsVal] at ihd
      rw [ihd, digitChar_toNat _ (Nat.mod_lt _ (by omega))]
      omega

/-- The number parser inverts decimal printing. -/
theorem parseNumber_natChars (n : Nat) (rest : List Char) (hr : delimOk rest) :
    parseNumber (natChars n ++ rest) = some (n, rest) := by
  unfold parseNumber
  rw [takeDigits_append (natChars n) rest (natChars_digits n) hr]
  obtain ⟨c, t, hct, -⟩ := natChars_cons n
  rw [hct]
  simp only []
  rw [← hct, digitsVal_natChars]

/-- Characters that can start a serialised JSON value. -/
def headGood (c : Char) : Prop :=
  c = 'n' ∨ c = 't' ∨ c = 'f' ∨ c = '"' ∨ c = '[' ∨ c = lbrace ∨ c = '-' ∨
    c.isDigit = true

/-- A digit character differs from any non-digit character. -/
theorem isDigit_ne (c x : Char) (h : c.isDigit = true) (hx : x.isDigit = false) :
    c ≠ x := by
  intro he
  rw [he, hx] at h
  cases h

/-- A serialised value is non-empty and starts with a value-head
character. -/
theorem jStr_head : ∀ v : Json, ∃ c t, jStr v = c :: t ∧ headGood c := by
  intro v
  cases v with
  | null => exact ⟨'n', ['u', 'l', 'l'], by simp [jStr, nullData], Or.inl rfl⟩
  | bool b =>
    cases b with
    | true =>
      exact ⟨'t', ['r', 'u', 'e'], by simp [jStr, trueData], Or.inr (Or.inl rfl)⟩
    | false =>
      exact ⟨'f', ['a', 'l', 's', 'e'], by simp [jStr, falseData],
        Or.inr (Or.inr (Or.inl rfl))⟩
  | num n =>
    by_cases h : n < 0
    · refine ⟨'-', natChars n.natAbs, by simp [jStr, intChars, h], ?_⟩
      exact Or.inr (Or.inr (Or.inr (Or.inr (Or.inr (Or.inr (Or.inl rfl))))))
    · obtain ⟨c, t, hct, hd⟩ := natChars_cons n.toNat
      refine ⟨c, t, by simp [jStr, intChars, h, hct], ?_⟩
      exact Or.inr (Or.inr (Or.inr (Or.inr (Or.inr (Or.inr (Or.inr hd))))))
  | str s =>
    exact ⟨'"', escStr s.data ++ ['"'], by simp [jStr],
      Or.inr (Or.inr (Or.inr (Or.inl rfl)))⟩
  | arr xs =>
    exact ⟨'[', jStrElems xs ++ [']'], by simp [jStr],
      Or.inr (Or.inr (Or.inr (Or.inr (Or.inl rfl))))⟩
  | obj fs =>
    exact ⟨lbrace, jStrFields fs ++ [rbrace], by simp [jStr],
      Or.inr (Or.inr (Or.inr (Or.inr (Or.inr (Or.inl rfl)))))⟩

/-- A value-head character is none of the structural delimiters. -/
theorem headGood_ne (c : Char) (h : headGood c) :
    c ≠ ']' ∧ c ≠ rbrace ∧ c ≠ ',' ∧ c ≠ ':' := by
  rcases h with rfl | rfl | rfl | rfl | rfl | rfl | rfl | hd
  · exact ⟨by decide, by decide, by decide, by decide⟩
  · exact ⟨by decide, by decide, by decide, by decide⟩
  · exact ⟨by decide, by decide, by decide, by decide⟩
  · exact ⟨by decide, by decide, by decide, by decide⟩
  · exact ⟨by decide, by decide, by decide, by decide⟩
  · exact ⟨by decide, by decide, by decide, by decide⟩
  · exact ⟨by decide, by decide, by decide, by decide⟩
  · exact ⟨isDigit_ne c _ hd (by decide), isDigit_ne c _ hd (by decide),
      isDigit_ne c _ hd (by decide), isDigit_ne c _ hd (by decide)⟩

/-- A list is a prefix of itself followed by anything. -/
theorem ipo_append (p l : List Char) : p.isPrefixOf (p ++ l) = true :=
  List.isPrefixOf_iff_prefix.mpr (List.prefix_append p l)

theorem pv_n (f : Nat) (cs : List Char) :
    parseVal (f + 1) ('n' :: cs)
      = if ['u', 'l', 'l'].isPrefixOf cs then some (.null, cs.drop 3) else none := by
  rw [parseVal.eq_def]
  simp

theorem pv_t (f : Nat) (cs : List Char) :
    parseVal (f + 1) ('t' :: cs)
      = if ['r', 'u', 'e'].isPrefixOf cs then some (.bool true, cs.drop 3)
        else none := by
  rw [parseVal.eq_def]
  simp

theorem pv_f (f : Nat) (cs : List Char) :
    parseVal (f + 1) ('f' :: cs)
      = if ['a', 'l', 's', 'e'].isPrefixOf cs then some (.bool false, cs.drop 4)
        else none := by
  rw [parseVal.eq_def]
  simp

theorem pv_quote (f : Nat) (cs : List Char) :
    parseVal (f + 1) ('"' :: cs)
      = (parseStringBody cs).map fun p => (.str (String.mk p.1), p.2) := by
  rw [parseVal.eq_def]
  simp

theorem pv_lbrack (f : Nat) (cs : List Char) :
    parseVal (f + 1) ('[' :: cs) = parseArrTail f cs := by
  rw [parseVal.eq_def]
  simp

theorem pv_lbraceStep (f : Nat) (cs : List Char) :
    parseVal (f + 1) (lbrace :: cs) = parseObjTail f cs := by
  rw [parseVal.eq_def]
  simp only []
  rw [if_neg (by decide), if_neg (by decide), if_neg (by decide),
    if_neg (by decide), if_neg (by decide)]
  simp

theorem pv_minus (f : Nat) (cs : List Char) :
    parseVal (f + 1) ('-' :: cs)
      = (parseNumber cs).map fun p => (.num (-(p.1 : Int)), p.2) := by
  rw [parseVal.eq_def]
  simp only []
  rw [if_neg (by decide), if_neg (by decide), if_neg (by decide),
    if_neg (by decide), if_neg (by decide), if_neg (by decide)]
  simp

theorem pv_digit (f : Nat) (c : Char) (cs : List Char) (h : c.isDigit = true) :
    parseVal (f + 1) (c :: cs)
      = (parseNumber (c :: cs)).map fun p => (.num (p.1 : Int), p.2) := by
  rw [parseVal.eq_def]
  simp only []
  rw [if_neg (isDigit_ne c _ h (by decide)), if_neg (isDigit_ne c _ h (by decide)),
    if_neg (isDigit_ne c _ h (by decide)), if_neg (isDigit_ne c _ h (by decide)),
    if_neg (isDigit_ne c _ h (by decide)), if_neg (isDigit_ne c _ h (by decide)),
    if_neg (isDigit_ne c _ h (by decide)), if_pos h]

/-- A non-empty element list serialises to a list with a value-head
character in front. -/
theorem jStrElems_head (xs : List Json) (h : xs ≠ []) :
    ∃ c t, jStrElems xs = c :: t ∧ headGood c := by
  cases xs with
  | nil => exact absurd rfl h
  | cons x xs2 =>
    obtain ⟨c, t, hct, hg⟩ := jStr_head x
    cases xs2 with
    | nil => exact ⟨c, t, by simp [jStrElems, hct], hg⟩
    | cons y xs3 =>
      exact ⟨c, t ++ ',' :: jStrElems (y :: xs3), by simp [jStrElems, hct], hg⟩

/-- A non-empty field list serialises to a list starting with a quote. -/
theorem jStrFields_head (fs : List (String × Json)) (h : fs ≠ []) :
    ∃ t, jStrFields fs = '"' :: t := by
  cases fs with
  | nil => exact absurd rfl h
  | cons kv fs2 =>
    obtain ⟨k, v⟩ := kv
    cases fs2 with
    | nil => exact ⟨escStr k.data ++ '"' :: ':' :: jStr v, by simp [jStrFields]⟩
    | cons f2 fs3 =>
      exact ⟨escStr k.data ++ '"' :: ':' :: (jStr v ++ ',' :: jStrFields (f2 :: fs3)),
        by simp [jStrFields]⟩

/-- Adequacy of the parser on serialised output: with fuel at least the
length of the serialised value, the parser reads the value back and leaves
the rest of the input (whenever the following character cannot extend a
number). -/
theorem parse_adequate : ∀ fuel : Nat,
    (∀ (v : Json) (rest : List Char), (jStr v).length ≤ fuel → delimOk rest →
      parseVal fuel (jStr v ++ rest) = some (v, rest)) ∧
    (∀ (xs : List Json) (rest : List Char), xs ≠ [] →
      (jStrElems xs).length + 1 ≤ fuel →
      parseElems fuel (jStrElems xs ++ ']' :: rest) = some (xs, rest)) ∧
    (∀ (fs : List (String × Json)) (rest : List Char), fs ≠ [] →
      (jStrFields fs).length + 1 ≤ fuel →
      parseFields fuel (jStrFields fs ++ rbrace :: rest) = some (fs, rest)) := by
  intro fuel
  induction fuel with
  | zero =>
    refine ⟨?_, ?_, ?_⟩
    · intro v rest hlen _
      obtain ⟨c, t, hct, -⟩ := jStr_head v
      rw [hct] at hlen
      simp at hlen
    · intro xs rest _ hlen
      omega
    · intro fs rest _ hlen
      omega
  | succ f ih =>
    obtain ⟨ihV, ihE, ihF⟩ := ih
    refine ⟨?_, ?_, ?_⟩
    · -- parseVal
      intro v rest hlen hdel
      cases v with
      | null =>
        simp only [jStr, nullData, List.cons_append, List.nil_append]
        have hp : ['u', 'l', 'l'].isPrefixOf ('u' :: 'l' :: 'l' :: rest) = true :=
          ipo_append ['u', 'l', 'l'] rest
        rw [pv_n, if_pos hp]
        rfl
      | bool b =>
        cases b with
        | true =>
          simp only [jStr, trueData, List.cons_append, List.nil_append]
          have hp : ['r', 'u', 'e'].isPrefixOf ('r' :: 'u' :: 'e' :: rest) = true :=
            ipo_append ['r', 'u', 'e'] rest
          rw [pv_t, if_pos hp]
          rfl
        | false =>
          simp only [jStr, falseData, List.cons_append, List.nil_append]
          have hp : ['a', 'l', 's', 'e'].isPrefixOf
              ('a' :: 'l' :: 's' :: 'e' :: rest) = true :=
            ipo_append ['a', 'l', 's', 'e'] rest
          rw [pv_f, if_pos hp]
          rfl
      | num n =>
        by_cases hn : n < 0
        · simp only [jStr, intChars, if_pos hn, List.cons_append]
          rw [pv_minus, parseNumber_natChars _ _ hdel]
          have harith : -((n.natAbs : Nat) : Int) = n := by omega
          show some (Json.num (-((n.natAbs : Nat) : Int)), rest) = _
          rw [harith]
        · simp only [jStr, intChars, if_neg hn]
          obtain ⟨c, t, hct, hd⟩ := natChars_cons n.toNat
          rw [hct, List.cons_append, pv_digit f c _ hd]
          have hsh : (c :: (t ++ rest)) = natChars n.toNat ++ rest := by
            rw [hct, List.cons_append]
          rw [hsh, parseNumber_natChars _ _ hdel]
          have harith : ((n.toNat : Nat) : Int) = n := by omega
          show some (Json.num ((n.toNat : Nat) : Int), rest) = _
          rw [harith]
      | str s =>
        simp only [jStr, List.cons_append, List.append_assoc, List.nil_append]
        rw [pv_quote, psb_escStr]
        show some (Json.str (String.mk s.data), rest) = _
        rw [stringMkData]
      | arr xs =>
        simp only [jStr, List.cons_append, List.append_assoc, List.nil_append]
        rw [pv_lbrack]
        cases xs with
        | nil =>
          simp only [jStrElems, List.nil_append]
          rw [parseArrTail.eq_def]
          simp
        | cons x xs2 =>
          obtain ⟨c, t, hct, hg⟩ := jStrElems_head (x :: xs2) (by simp)
          have hlen2 : (jStrElems (x :: xs2)).length + 1 ≤ f := by
            simp only [jStr, List.length_cons, List.length_append,
              List.length_singleton] at hlen
            omega
          rw [hct, List.cons_append, parseArrTail.eq_def]
          simp only []
          rw [if_neg (headGood_ne c hg).1]
          have hback : (c :: (t ++ ']' :: rest))
              = jStrElems (x :: xs2) ++ ']' :: rest := by
            rw [hct, List.cons_append]
          rw [hback, ihE (x :: xs2) rest (by simp) hlen2]
          rfl
      | obj fs =>
        simp only [jStr, List.cons_append, List.append_assoc, List.nil_append]
        rw [pv_lbraceStep]
        cases fs with
        | nil =>
          simp only [jStrFields, List.nil_append]
          rw [parseObjTail.eq_def]
          simp
        | cons kv fs2 =>
          obtain ⟨t, hct⟩ := jStrFields_head (kv :: fs2) (by simp)
          have hlen2 : (jStrFields (kv :: fs2)).length + 1 ≤ f := by
            simp only [jStr, List.length_cons, List.length_append,
              List.length_singleton] at hlen
            omega
          rw [hct, List.cons_append, parseObjTail.eq_def]
          simp only []
          rw [if_neg (show ¬(('"' : Char) = rbrace) from by decide)]
          have hback : ('"' :: (t ++ rbrace :: rest))
              = jStrFields (kv :: fs2) ++ rbrace :: rest := by
            rw [hct, List.cons_append]
          rw [hback, ihF (kv :: fs2) rest (by simp) hlen2]
          rfl
    · -- parseElems
      intro xs rest hne hlen
      cases xs with
      | nil => exact absurd rfl hne
      | cons x xs2 =>
        cases xs2 with
        | nil =>
          simp only [jStrElems] at hlen ⊢
          rw [parseElems.eq_def]
          simp only []
          rw [ihV x (']' :: rest) (by omega) (delimOk_cons _ _ (by decide))]
          rfl
        | cons y xs3 =>
          simp only [jStrElems, List.length_append, List.length_cons] at hlen ⊢
          rw [List.append_assoc, List.cons_append, parseElems.eq_def]
          simp only []
          rw [ihV x (',' :: (jStrElems (y :: xs3) ++ ']' :: rest))
            (by omega) (delimOk_cons _ _ (by decide))]
          simp only []
          rw [ihE (y :: xs3) rest (by simp) (by omega)]
          rfl
    · -- parseFields
      intro fs rest hne hlen
      cases fs with
      | nil => exact absurd rfl hne
      | cons kv fs2 =>
        obtain ⟨k, v⟩ := kv
        cases fs2 with
        | nil =>
          simp only [jStrFields, List.cons_append, List.append_assoc,
            List.length_cons, List.length_append] at hlen ⊢
          rw [parseFields.eq_def]
          simp only []
          rw [psb_escStr k.data (':' :: (jStr v ++ rbrace :: rest))]
          simp only []
          rw [ihV v (rbrace :: rest) (by omega) (delimOk_cons _ _ (by decide))]
          simp only [stringMkData]
          rfl
        | cons f2 fs3 =>
          simp only [jStrFields, List.cons_append, List.append_assoc,
            List.length_cons, List.length_append] at hlen ⊢
          rw [parseFields.eq_def]
          simp only []
          rw [psb_escStr k.data
            (':' :: (jStr v ++ ',' :: (jStrFields (f2 :: fs3) ++ rbrace :: rest)))]
          simp only []
          rw [ihV v (',' :: (jStrFields (f2 :: fs3) ++ rbrace :: rest))
            (by omega) (delimOk_cons _ _ (by decide))]
          simp only []
          rw [ihF (f2 :: fs3) rest (by simp) (by omega)]
          simp only [stringMkData]
          rfl

/-- `JSON.parse` inverts `JSON.stringify`. -/
theorem jsonParse_jStr (v : Json) : jsonParse (String.mk (jStr v)) = some v := by
  unfold jsonParse
  have hdata : (String.mk (jStr v)).data = jStr v := rfl
  rw [hdata]
  have hav := (parse_adequate ((jStr v).length + 1)).1 v [] (by omega) trivial
  rw [List.append_nil] at hav
  rw [hav]

/-! ## Base64: models of the `btoa` and `atob` builtins -/

/-- Character of one six-bit value in the standard Base64 alphabet. -/
def b64Char (n : Nat) : Char :=
  Char.ofNat
    (if n < 26 then 65 + n
     else if n < 52 then 71 + n
     else if n < 62 then n - 4
     else if n = 62 then 43
     else 47)

/-- Six-bit value of a Base64 alphabet character, `none` outside the
alphabet. -/
def b64Index (c : Char) : Option Nat :=
  let n := c.toNat
  if 65 ≤ n ∧ n ≤ 90 then some (n - 65)
  else if 97 ≤ n ∧ n ≤ 122 then some (n - 71)
  else if 48 ≤ n ∧ n ≤ 57 then some (n + 4)
  else if n = 43 then some 62
  else if n = 47 then some 63
  else none

/-- Base64-encode a byte list, three bytes to four characters, padding the
final group with `=`. -/
def b64EncodeBytes : List Nat → List Char
  | [] => []
  | [b] => [b64Char (b / 4), b64Char (b % 4 * 16), '=', '=']
  | [b, c] => [b64Char (b / 4), b64Char (b % 4 * 16 + c / 16), b64Char (c % 16 * 4), '=']
  | b :: c :: d :: rest =>
      b64Char (b / 4) :: b64Char (b % 4 * 16 + c / 16) ::
        b64Char (c % 16 * 4 + d / 64) :: b64Char (d % 64) :: b64EncodeBytes rest

/-- Base64-decode a character list, four characters (with possible final
padding) to bytes; `none` on any malformed group, as `atob` throws. -/
def b64DecodeChars : List Char → Option (List Nat)
  | [] => some []
  | c1 :: c2 :: c3 :: c4 :: rest =>
    match b64Index c1, b64Index c2 with
    | some n1, some n2 =>
      if c3 = '=' then
        if c4 = '=' ∧ rest = [] then some [n1 * 4 + n2 / 16] else none
      else
        match b64Index c3 with
        | some n3 =>
          if c4 = '=' then
            if rest = [] then some [n1 * 4 + n2 / 16, n2 % 16 * 16 + n3 / 4] else none
          else
            match b64Index c4, b64DecodeChars rest with
            | some n4, some tail =>
                some ((n1 * 4 + n2 / 16) :: (n2 % 16 * 16 + n3 / 4) ::
                  (n3 % 4 * 64 + n4) :: tail)
            | _, _ => none
        | none => none
    | _, _ => none
  | _ => none

/-- Model of `btoa`: Base64 of the byte values of the characters of the string,
`none` (a thrown `InvalidCharacterError`) if any character is outside
Latin-1. -/
def btoa (s : String) : Option String :=
  if s.data.all fun c => decide (c.toNat < 256) then
    some (String.mk (b64EncodeBytes (s.data.map Char.toNat)))
  else none

/-- Model of `atob`: decode a Base64 string to the string of its byte
values, `none` (a thrown `InvalidCharacterError`) on malformed input. -/
def atob (s : String) : Option String :=
  (b64DecodeChars s.data).map fun bs => String.mk (bs.map Char.ofNat)

/-- The Base64 alphabet maps are inverse. -/
theorem b64Index_b64Char : ∀ n : Nat, n < 64 → b64Index (b64Char n) = some n := by
  decide

/-- Padding is outside the Base64 alphabet. -/
theorem b64Index_pad : b64Index '=' = none := by decide

/-- Base64 decoding inverts Base64 encoding on byte lists. -/
theorem b64Decode_b64Encode : ∀ bs : List Nat, (∀ b ∈ bs, b < 256) →
    b64DecodeChars (b64EncodeBytes bs) = some bs
  | [], _ => by simp [b64EncodeBytes, b64DecodeChars]
  | [b], h => by
    have hb : b < 256 := h b (by simp)
    simp only [b64EncodeBytes, b64DecodeChars]
    rw [b64Index_b64Char _ (by omega), b64Index_b64Char _ (by omega)]
    simp
    omega
  | [b, c], h => by
    have hb : b < 256 := h b (by simp)
    have hc : c < 256 := h c (by simp)
    simp only [b64EncodeBytes, b64DecodeChars]
    rw [b64Index_b64Char _ (by omega), b64Index_b64Char _ (by omega)]
    have hne : b64Char (c % 16 * 4) ≠ '=' := by
      intro he
      have hidx := b64Index_b64Char (c % 16 * 4) (by omega)
      rw [he, b64Index_pad] at hidx
      cases hidx
    simp only [if_neg hne]
    rw [b64Index_b64Char _ (by omega)]
    simp
    constructor
    · omega
    · omega
  | b :: c :: d :: rest2, h => by
    have hb : b < 256 := h b (by simp)
    have hc : c < 256 := h c (by simp)
    have hd : d < 256 := h d (by simp)
    have ih := b64Decode_b64Encode rest2 fun x hx =>
      h x (by simp at hx ⊢; tauto)
    have hne3 : b64Char (c % 16 * 4 + d / 64) ≠ '=' := by
      intro he
      have hidx := b64Index_b64Char (c % 16 * 4 + d / 64) (by omega)
      rw [he, b64Index_pad] at hidx
      cases hidx
    have hne4 : b64Char (d % 64) ≠ '=' := by
      intro he
      have hidx := b64Index_b64Char (d % 64) (by omega)
      rw [he, b64Index_pad] at hidx
      cases hidx
    simp only [b64EncodeBytes, b64DecodeChars]
    rw [b64Index_b64Char _ (by omega), b64Index_b64Char _ (by omega)]
    simp only [if_neg hne3]
    rw [b64Index_b64Char _ (by omega)]
    simp only [if_neg hne4]
    rw [b64Index_b64Char _ (by omega), ih]
    simp
    refine ⟨by omega, by omega, by omega⟩

/-- `atob` inverts `btoa` on Latin-1 strings. -/
theorem atob_btoa (s : String) (h : ∀ c ∈ s.data, c.toNat < 256) :
    ∃ e, btoa s = some e ∧ atob e = some s := by
  have hall : (s.data.all fun c => decide (c.toNat < 256)) = true := by
    rw [List.all_eq_true]
    intro c hc
    exact decide_eq_true (h c hc)
  refine ⟨String.mk (b64EncodeBytes (s.data.map Char.toNat)), ?_, ?_⟩
  · unfold btoa
    rw [if_pos hall]
  · unfold atob
    have hdata : (String.mk (b64EncodeBytes (s.data.map Char.toNat))).data
        = b64EncodeBytes (s.data.map Char.toNat) := rfl
    rw [hdata, b64Decode_b64Encode (s.data.map Char.toNat) ?bound]
    case bound =>
      intro b hb
      rw [List.mem_map] at hb
      obtain ⟨c, hc, rfl⟩ := hb
      exact h c hc
    simp only [Option.map_some', List.map_map]
    have hmap : s.data.map (Char.ofNat ∘ Char.toNat) = s.data := by
      rw [List.map_congr_left fun c _ => ?_, List.map_id]
      exact Char.ofNat_toNat c
    rw [hmap, stringMkData]

/-! ## Percent decoding

Model of `decodeURIComponent` at the byte level: a `%` followed by two
hexadecimal digits becomes the character of that byte value; a malformed
`%` sequence is a thrown `URIError`, i.e. `none`.  (The builtin
additionally reassembles multi-byte UTF-8 sequences; over the Base64
alphabet actually carried in the state parameter every percent-encoded
byte is single-byte ASCII, where this model agrees with the builtin.) -/
def percentDecodeChars : List Char → Option (List Char)
  | [] => some []
  | '%' :: rest =>
    match rest with
    | h1 :: h2 :: rest2 =>
      match hexVal h1, hexVal h2 with
      | some a, some b =>
        (percentDecodeChars rest2).map fun t => Char.ofNat (a * 16 + b) :: t
      | _, _ => none
    | _ => none
  | c :: rest => (percentDecodeChars rest).map fun t => c :: t

/-- String-level wrapper for the percent-decoding model. -/
def percentDecode (s : String) : Option String :=
  (percentDecodeChars s.data).map String.mk

/-! ## The state codec of the primary flow

`redirectToGithub` encodes the authorization request as
`btoa(JSON.stringify(oauthReqInfo))`; the `/callback` route decodes a
received state parameter with `JSON.parse(atob(stateParam))`, retrying
after `decodeURIComponent` when the direct attempt throws. -/

/-- Encoding of the state parameter at `redirectToGithub`
(`btoa(JSON.stringify(oauthReqInfo))`); `none` models the `btoa` throw on
non-Latin-1 serialisations. -/
def encodeState (j : Json) : Option String :=
  btoa (String.mk (jStr j))

/-- One direct decode attempt of the callback:
`JSON.parse(atob(stateParam))`; `none` models a throw of either builtin. -/
def decodeStateDirect (s : String) : Option Json :=
  (atob s).bind jsonParse

/-- The complete decode ladder of the callback: a direct decode first and,
only if it fails, one more attempt after reversing a percent-decoding
pass. -/
def decodeWithRetry (s : String) : Option Json :=
  match decodeStateDirect s with
  | some j => some j
  | none =>
    match percentDecode s with
    | none => none
    | some s2 => decodeStateDirect s2

/-- Property access `oauthReqInfo[key]` as JavaScript evaluates it on a
`JSON.parse` result: `none` models the TypeError the access throws on
`null`; `some none` is `undefined` (a primitive receiver, or an object
without the key); `some (some v)` is the value of the key, where an
object built by `JSON.parse` keeps the last occurrence of a duplicate
key. -/
def jsGet (j : Json) (key : String) : Option (Option Json) :=
  match j with
  | .null => none
  | .obj fs => some ((fs.reverse).lookup key)
  | _ => some none

/-- JavaScript truthiness of a possibly-undefined value, as used by the
`!oauthReqInfo.clientId` guard. -/
def jsTruthy : Option Json → Bool
  | none => false
  | some .null => false
  | some (.bool b) => b
  | some (.num n) => decide (n ≠ 0)
  | some (.str s) => decide (s ≠ "")
  | some (.arr _) => true
  | some (.obj _) => true

/-- The `clientId` guard as a boolean: the access is defined and yields a
truthy value.  (A null record, whose access throws instead of returning,
also yields `false` here; the handler still fails before any exchange,
through the catch rather than the 400 — `ghAfterDecode` keeps the two
apart.) -/
def clientIdOk (j : Json) : Bool :=
  match jsGet j "clientId" with
  | some v => jsTruthy v
  | none => false

/-- Helper: decoding recovers every value whose serialisation stays in
Latin-1 (exactly the inputs on which `btoa` does not throw). -/
theorem decode_encode_aux (j : Json)
    (h : ∀ c ∈ jStr j, c.toNat < 256) :
    ∃ s, encodeState j = some s ∧ decodeStateDirect s = some j := by
  obtain ⟨e, hb, ha⟩ := atob_btoa (String.mk (jStr j)) h
  refine ⟨e, hb, ?_⟩
  unfold decodeStateDirect
  rw [ha]
  show jsonParse (String.mk (jStr j)) = some j
  exact jsonParse_jStr j

/-! ## Primary (GitHub) callback handler

Model of `app.get("/callback")` in `src/auth/github-handler.ts`.  The
network effects (token endpoint, Octokit user lookup, Microsoft token
lookup, `completeAuthorization`) are oracles supplied in an environment
record; the output records the HTTP response and whether a network post to
the token endpoint happened. -/

/-- Behaviour of the upstream token endpoint for one request. -/
inductive UpstreamFetchOutcome where
  | ok (accessToken : String)
  | httpError (status : Nat) (body : String)

/-- A caller-visible failure response forwarded to the HTTP layer. -/
structure HttpFailure where
  status : Nat
  body : String
deriving DecidableEq

/-- Modelled from the spec: `fetchUpstreamAuthToken` lives in
`src/auth/oauth-utils.ts`, which is not among the given sources (only its
callers are).  Per §4.4, the exchanger posts a form-encoded grant and, on
a non-success HTTP status, returns a caller-visible failure carrying the
upstream status and a response body with no secret material, suitable for
direct forwarding; per the overall state machine a missing `code` cannot
enter `EXCHANGING_CODE`, so it yields an immediate failure with no network
post.  The second component records whether the network post happened. -/
def fetchUpstreamAuthToken (code : Option String) (net : UpstreamFetchOutcome) :
    Except HttpFailure String × Bool :=
  match code with
  | none => (.error ⟨400, "Missing code"⟩, false)
  | some _ =>
    match net with
    | .ok tok => (.ok tok, true)
    | .httpError st body => (.error ⟨st, body⟩, true)

/-- Query parameters of a `/callback` request, each `none` when absent or
empty — the two cases every JavaScript truthiness guard in the handlers
treats identically.  The `error` parameter is carried to express claims
about it; the handler never reads it. -/
structure GhReq where
  state : Option String
  code : Option String
  error : Option String

/-- The possible responses of the `/callback` route; `caughtError` is the
outer catch rendering `Callback error: ` plus the thrown message with
HTTP 500. -/
inductive GhResp where
  | missingState
  | decodeFailed
  | missingClientId
  | upstreamFailure (f : HttpFailure)
  | caughtError (msg : String)
  | redirect (location : String)
deriving DecidableEq

/-- HTTP status of each `/callback` response. -/
def GhResp.status : GhResp → Nat
  | .missingState => 400
  | .decodeFailed => 400
  | .missingClientId => 400
  | .upstreamFailure f => f.status
  | .caughtError _ => 500
  | .redirect _ => 302

/-- Message of the TypeError raised by reading `clientId` off a record
that decoded to JSON null (engine wording, unquoted). -/
def typeErrorNullClientId : String :=
  "Cannot read properties of null (reading clientId)"

/-- GitHub user data used by the handler. -/
structure GhUser where
  login : String
  name : String
  email : String

/-- Result of the `/callback` route: the response plus whether the token
endpoint was actually posted to. -/
structure GhOut where
  resp : GhResp
  exchangePosted : Bool
deriving DecidableEq

/-- Oracles for the effects of the `/callback` route. -/
structure GhEnv where
  net : UpstreamFetchOutcome
  user : Except String GhUser
  redirectTo : String

/-- The tail of `/callback` after a state has been decoded to
`oauthReqInfo`: the `!oauthReqInfo.clientId` guard — whose property
access throws a TypeError straight into the outer catch (HTTP 500) when
the state decoded to JSON null — then the token exchange, the Octokit
user fetch (whose throw also lands in the outer catch), the
Microsoft-token lookup and `completeAuthorization` (summarised by the
`redirectTo` oracle). -/
def ghAfterDecode (req : GhReq) (env : GhEnv) (j : Json) : GhOut :=
  match jsGet j "clientId" with
  | none => ⟨.caughtError typeErrorNullClientId, false⟩
  | some v =>
    if jsTruthy v = false then ⟨.missingClientId, false⟩
    else
      match fetchUpstreamAuthToken req.code env.net with
      | (.error f, posted) => ⟨.upstreamFailure f, posted⟩
      | (.ok _, posted) =>
        match env.user with
        | .error m => ⟨.caughtError m, posted⟩
        | .ok _ => ⟨.redirect env.redirectTo, posted⟩

/-- Model of `app.get("/callback")`: require the state parameter, try the
direct decode, retry once after a percent-decoding reversal, reject a
record without a truthy `clientId`, then exchange and complete. -/
def githubCallback (req : GhReq) (env : GhEnv) : GhOut :=
  match req.state with
  | none => ⟨.missingState, false⟩
  | some st =>
    match decodeStateDirect st with
    | some j => ghAfterDecode req env j
    | none =>
      match percentDecode st with
      | none => ⟨.decodeFailed, false⟩
      | some st2 =>
        match decodeStateDirect st2 with
        | some j => ghAfterDecode req env j
        | none => ⟨.decodeFailed, false⟩

/-- The callback collapses to a single decode ladder. -/
theorem githubCallback_ladder (req : GhReq) (env : GhEnv) (st : String)
    (hst : req.state = some st) :
    githubCallback req env
      = match decodeWithRetry st with
        | some j => ghAfterDecode req env j
        | none => ⟨GhResp.decodeFailed, false⟩ := by
  simp only [githubCallback, hst]
  rw [decodeWithRetry.eq_def]
  cases hd : decodeStateDirect st with
  | some j => rfl
  | none =>
    cases hp : percentDecode st with
    | none => rfl
    | some st2 => cases hd2 : decodeStateDirect st2 <;> rfl

/-! ## Secondary (Microsoft) handler

Model of the `/microsoft/callback` route and the token cache of
`src/auth/microsoft-handler.ts`, over an explicit KV store. -/

/-- Parsed body of a successful Microsoft token-endpoint response. -/
structure MsTokenResponse where
  access_token : String
  refresh_token : Option String
  expires_in : Int
  token_type : String
  scope : String

/-- Behaviour of the Microsoft token endpoint for one request. -/
inductive ExchangeNet where
  | httpError (status : Nat) (body : String)
  | success (tr : MsTokenResponse)

/-- Model of `exchangeCodeForToken`: posts the form-encoded
authorization-code grant built from the credentials and, on a non-ok
response, throws `Token exchange failed: ` followed by the response body
text (an `Except.error` here); on ok, returns the parsed body. -/
def exchangeCodeForToken (clientId clientSecret code redirectUri : String)
    (net : ExchangeNet) : Except String MsTokenResponse :=
  match net with
  | .httpError _ body => .error ("Token exchange failed: " ++ body)
  | .success tr => .ok tr

/-- Model of `refreshMicrosoftToken`: posts the refresh-token grant and,
on a non-ok response, throws `Token refresh failed: ` followed by the
response body text; on ok, returns the parsed body. -/
def refreshMicrosoftToken (clientId clientSecret refreshToken : String)
    (net : ExchangeNet) : Except String MsTokenResponse :=
  match net with
  | .httpError _ body => .error ("Token refresh failed: " ++ body)
  | .success tr => .ok tr

/-- Microsoft Graph `/me` payload. -/
structure MsUserInfo where
  id : String
  displayName : String
  mail : String
  userPrincipalName : String

/-- The profile snapshot stored with a token record. -/
structure SavedUserInfo where
  id : String
  displayName : String
  email : String
deriving DecidableEq

/-- A persisted Microsoft token record (`ms_tokens:` values). -/
structure TokenData where
  accessToken : String
  refreshToken : Option String
  expiresAt : Int
  userInfo : Option SavedUserInfo
deriving DecidableEq

/-- A value in the KV store: a pending-state record or a token record. -/
inductive StoredVal where
  | stateRec (userId : String)
  | tokens (t : TokenData)
deriving DecidableEq

/-- Destructuring `JSON.parse(stateData)` as `{ userId }`: a token record
under a state key cannot arise (the key prefixes are disjoint); the
JavaScript destructuring would produce `undefined`, which interpolates
into later keys as the string `undefined`. -/
def StoredVal.asStateUserId : StoredVal → String
  | .stateRec uid => uid
  | .tokens _ => "undefined"

/-- The KV store (`OAUTH_KV`). -/
def Store := String → Option StoredVal

/-- `OAUTH_KV.put`. -/
def Store.put (kv : Store) (k : String) (v : StoredVal) : Store :=
  fun k2 => if k2 = k then some v else kv k2

/-- `OAUTH_KV.delete`. -/
def Store.del (kv : Store) (k : String) : Store :=
  fun k2 => if k2 = k then none else kv k2

/-- Key of a pending OAuth state nonce. -/
def stateKey (st : String) : String := "ms_oauth_state:" ++ st

/-- Key of the Microsoft token record of a user. -/
def tokensKey (uid : String) : String := "ms_tokens:" ++ uid

/-- Observable effects of the Microsoft callback, in program order. -/
inductive MsEvent where
  | kvGet (key : String)
  | kvDelete (key : String)
  | exchangeReq (code : String)
  | graphReq
  | kvPut (key : String) (ttlSeconds : Nat)
deriving DecidableEq

/-- Query parameters of a `/microsoft/callback` request, each `none` when
absent or empty (both falsy under the guards of the handler). -/
structure MsReq where
  code : Option String
  state : Option String
  error : Option String
  errorDescription : Option String

/-- The pages the Microsoft callback can render. -/
inductive MsPage where
  | authFailedPage (description : String)
  | missingParams
  | errorPage (message : String)
  | successPage (displayName email : String)
deriving DecidableEq

/-- Result of the Microsoft callback: response, final store, and the
effect trace. -/
structure MsOut where
  status : Nat
  page : MsPage
  store : Store
  events : List MsEvent

/-- Environment of the Microsoft callback: credentials and the two
network oracles. -/
structure MsEnv where
  clientId : String
  clientSecret : String
  redirectUri : String
  net : ExchangeNet
  graph : Except String MsUserInfo

/-- JavaScript truthiness of `userInfo.mail`, as used by
`userInfo.mail || userInfo.userPrincipalName`. -/
def msEmailOf (u : MsUserInfo) : String :=
  if u.mail = "" then u.userPrincipalName else u.mail

/-- Model of `app.get("/microsoft/callback")`: reject a provider `error`,
require `code` and `state`, read and immediately delete the pending-state
nonce, exchange the code, fetch the Graph profile, and persist the token
record with `expiresAt = Date.now() + expires_in * 1000` under a 90-day
TTL; any throw lands in the catch that renders the error page with
HTTP 500. -/
def microsoftCallback (req : MsReq) (env : MsEnv) (now : Int) (kv : Store) :
    MsOut :=
  match req.error with
  | some e =>
    { status := 200, page := .authFailedPage ((req.errorDescription).getD e),
      store := kv, events := [] }
  | none =>
    match req.code, req.state with
    | some code, some st =>
      match kv (stateKey st) with
      | none =>
        { status := 500, page := .errorPage "Invalid or expired state parameter",
          store := kv, events := [.kvGet (stateKey st)] }
      | some v =>
        let userId := v.asStateUserId
        let kv1 := kv.del (stateKey st)
        match exchangeCodeForToken env.clientId env.clientSecret code
            env.redirectUri env.net with
        | .error msg =>
          { status := 500, page := .errorPage msg, store := kv1,
            events := [.kvGet (stateKey st), .kvDelete (stateKey st),
              .exchangeReq code] }
        | .ok tr =>
          match env.graph with
          | .error msg =>
            { status := 500, page := .errorPage msg, store := kv1,
              events := [.kvGet (stateKey st), .kvDelete (stateKey st),
                .exchangeReq code, .graphReq] }
          | .ok userInfo =>
            let tokenData : TokenData :=
              { accessToken := tr.access_token,
                refreshToken := tr.refresh_token,
                expiresAt := now + tr.expires_in * 1000,
                userInfo := some ⟨userInfo.id, userInfo.displayName,
                  msEmailOf userInfo⟩ }
            { status := 200,
              page := .successPage userInfo.displayName (msEmailOf userInfo),
              store := kv1.put (tokensKey userId) (.tokens tokenData),
              events := [.kvGet (stateKey st), .kvDelete (stateKey st),
                .exchangeReq code, .graphReq,
                .kvPut (tokensKey userId) (90 * 24 * 60 * 60)] }
    | _, _ =>
      { status := 400, page := .missingParams, store := kv, events := [] }

/-- The three fields `getMicrosoftTokens` returns to its caller. -/
structure TokenView where
  accessToken : String
  refreshToken : Option String
  expiresAt : Int
deriving DecidableEq

/-- Result of `getMicrosoftTokens`: the returned view, the final store,
the number of refresh calls made, and the console-error log lines. -/
structure GetTokensOut where
  result : Option TokenView
  store : Store
  refreshCalls : Nat
  logs : List String

/-- Model of `getMicrosoftTokens`: read `ms_tokens:{userId}`; when a
refresh token is (truthily) present and `Date.now()` is past
`expiresAt - 300000`, call the refresh grant once — on success overwrite
the stored record (keeping the old refresh token if the response omits a
truthy new one, and setting `expiresAt` from a second `Date.now()` reading
`now2`), on failure only log — and return the (possibly updated) record.
A state record under a token key cannot arise (disjoint key prefixes) and
is returned as absent. -/
def getMicrosoftTokens (clientId clientSecret userId : String)
    (now now2 : Int) (net : ExchangeNet) (kv : Store) : GetTokensOut :=
  match kv (tokensKey userId) with
  | none => ⟨none, kv, 0, []⟩
  | some (.stateRec _) => ⟨none, kv, 0, []⟩
  | some (.tokens t) =>
    match t.refreshToken with
    | some rt =>
      if rt ≠ "" ∧ now > t.expiresAt - 300000 then
        match refreshMicrosoftToken clientId clientSecret rt net with
        | .ok nt =>
          let t2 : TokenData :=
            { accessToken := nt.access_token,
              refreshToken :=
                match nt.refresh_token with
                | some r => if r = "" then t.refreshToken else some r
                | none => t.refreshToken,
              expiresAt := now2 + nt.expires_in * 1000,
              userInfo := t.userInfo }
          ⟨some ⟨t2.accessToken, t2.refreshToken, t2.expiresAt⟩,
            kv.put (tokensKey userId) (.tokens t2), 1, []⟩
        | .error msg =>
          ⟨some ⟨t.accessToken, t.refreshToken, t.expiresAt⟩, kv, 1,
            ["Failed to refresh Microsoft token: " ++ msg]⟩
      else ⟨some ⟨t.accessToken, t.refreshToken, t.expiresAt⟩, kv, 0, []⟩
    | none => ⟨some ⟨t.accessToken, t.refreshToken, t.expiresAt⟩, kv, 0, []⟩

/-- The two key namespaces of the store never collide. -/
theorem stateKey_ne_tokensKey (st uid : String) : stateKey st ≠ tokensKey uid := by
  intro h
  have hd := congrArg String.data h
  have h1 : (stateKey st).data = "ms_oauth_state:".data ++ st.data := rfl
  have h2 : (tokensKey uid).data = "ms_tokens:".data ++ uid.data := rfl
  rw [h1, h2] at hd
  simp [String.data] at hd


/-! ## Claim theorems -/

/-- The Base64 encoding of the serialisation of JSON null, exactly what
the redirect would build for a null record (`btoa` of `null`). -/
def c1NullState : String :=
  String.mk (b64EncodeBytes ((jStr Json.null).map Char.toNat))

/-- The null state decodes on the direct attempt to JSON null. -/
theorem c1NullState_decodes : decodeStateDirect c1NullState = some Json.null := by
  unfold decodeStateDirect
  rw [show atob c1NullState = some (String.mk (jStr Json.null)) from rfl]
  exact jsonParse_jStr Json.null

/-- C1 counterexample: the state built as `btoa` of `null` decodes on the
direct attempt, but the decoded record is JSON null, so the `clientId`
guard itself throws a TypeError and the outer catch answers HTTP 500 —
not the DecodeError-style 400 the claim requires for a decoded record
without a truthy `clientId`. -/
theorem c1_null_state_cex :
    githubCallback ⟨some c1NullState, some "codeX", none⟩
        ⟨.ok "tok", .ok ⟨"login", "name", "mail"⟩, "loc"⟩
      = ⟨GhResp.caughtError typeErrorNullClientId, false⟩ ∧
    GhResp.status (githubCallback ⟨some c1NullState, some "codeX", none⟩
        ⟨.ok "tok", .ok ⟨"login", "name", "mail"⟩, "loc"⟩).resp = 500 := by
  have h : githubCallback ⟨some c1NullState, some "codeX", none⟩
      ⟨.ok "tok", .ok ⟨"login", "name", "mail"⟩, "loc"⟩
      = ⟨GhResp.caughtError typeErrorNullClientId, false⟩ := by
    simp [githubCallback, c1NullState_decodes, ghAfterDecode, jsGet]
  exact ⟨h, by rw [h]; rfl⟩

/-- C1 (amended): for every state string received at the primary
callback, the handler first attempts the direct decode and behaves as
that result whenever it succeeds (the retry is never consulted); only on
failure does it retry after reversing one percent-decoding pass; when
both attempts fail it returns the DecodeError-style HTTP 400 response
with no token-endpoint post and no redirect; when the state decodes to
JSON null, the `clientId` guard itself throws a TypeError and the outer
catch answers HTTP 500 — still with no token-endpoint post and no
redirect; for any other decoded record whose `clientId` access yields no
truthy value the handler returns the HTTP 400 response with no
token-endpoint post and no redirect. -/
theorem c1_decode_ladder (req : GhReq) (env : GhEnv) (st : String)
    (hst : req.state = some st) :
    (∀ j, decodeStateDirect st = some j →
      githubCallback req env = ghAfterDecode req env j) ∧
    (decodeWithRetry st = none →
      githubCallback req env = ⟨GhResp.decodeFailed, false⟩ ∧
      GhResp.status (githubCallback req env).resp = 400) ∧
    (decodeWithRetry st = some Json.null →
      githubCallback req env
        = ⟨GhResp.caughtError typeErrorNullClientId, false⟩ ∧
      GhResp.status (githubCallback req env).resp = 500) ∧
    (∀ j v, decodeWithRetry st = some j → jsGet j "clientId" = some v →
      jsTruthy v = false →
      githubCallback req env = ⟨GhResp.missingClientId, false⟩ ∧
      GhResp.status (githubCallback req env).resp = 400) := by
  rw [githubCallback_ladder req env st hst]
  refine ⟨?_, ?_, ?_, ?_⟩
  · intro j hj
    have h2 : decodeWithRetry st = some j := by
      simp only [decodeWithRetry, hj]
    simp only [h2]
  · intro hnone
    rw [hnone]
    exact ⟨rfl, rfl⟩
  · intro hnull
    rw [hnull]
    exact ⟨rfl, rfl⟩
  · intro j v hj hv htv
    rw [hj]
    have hout : ghAfterDecode req env j = ⟨GhResp.missingClientId, false⟩ := by
      simp [ghAfterDecode, hv, htv]
    constructor
    · show ghAfterDecode req env j = _
      exact hout
    · show GhResp.status (ghAfterDecode req env j).resp = 400
      rw [hout]
      rfl

/-- Witness for C1 (amended) at the undecodable state string `!!!`. -/
theorem c1_decode_ladder_witness :
    githubCallback ⟨some "!!!", none, none⟩
        ⟨.ok "tok", .ok ⟨"login", "name", "mail"⟩, "loc"⟩
      = ⟨GhResp.decodeFailed, false⟩ :=
  ((c1_decode_ladder ⟨some "!!!", none, none⟩
    ⟨.ok "tok", .ok ⟨"login", "name", "mail"⟩, "loc"⟩ "!!!" rfl).2.1 rfl).1

/-- C2: for every authorization-request record whose serialisation stays
in Latin-1 (the inputs on which `btoa` is defined), decoding the encoded
state recovers the record exactly: the callback direct-decode path
`JSON.parse(atob(s))` applied to the redirect encoding
`btoa(JSON.stringify(r))` yields `r` back. -/
theorem c2_state_roundtrip (r : Json) (h : ∀ c ∈ jStr r, c.toNat < 256) :
    ∃ s, encodeState r = some s ∧ decodeStateDirect s = some r :=
  decode_encode_aux r h

/-- Witness for C2 at a concrete authorization request. -/
theorem c2_state_roundtrip_witness :
    ∃ s,
      encodeState (Json.obj [("clientId", Json.str "abc123"),
        ("redirectUri", Json.str "http://localhost:8788/callback"),
        ("scope", Json.arr [Json.str "read:user"])]) = some s ∧
      decodeStateDirect s
        = some (Json.obj [("clientId", Json.str "abc123"),
            ("redirectUri", Json.str "http://localhost:8788/callback"),
            ("scope", Json.arr [Json.str "read:user"])]) :=
  c2_state_roundtrip _ (by decide)


/-- The decoded record of the C3 counterexample. -/
def c3Json : Json := Json.obj [("clientId", Json.str "abc")]

/-- The state string of the C3 counterexample: the Base64 encoding of the
serialisation of the record, exactly as the redirect builds it. -/
def c3State : String := String.mk (b64EncodeBytes ((jStr c3Json).map Char.toNat))

/-- The concrete state of the counterexample decodes to its record. -/
theorem c3State_decodes : decodeStateDirect c3State = some c3Json := by
  unfold decodeStateDirect
  rw [show atob c3State = some (String.mk (jStr c3Json)) from rfl]
  exact jsonParse_jStr c3Json

/-- C3 counterexample: a primary-callback request carrying an `error`
parameter together with a code and a decodable state still posts the token
exchange — the handler never inspects the error parameter, so the exchange
is not attempted only when the provider reported no error parameter. -/
theorem c3_error_param_ignored_cex :
    (githubCallback ⟨some c3State, some "codeX", some "access_denied"⟩
        ⟨.ok "tok", .ok ⟨"login", "name", "mail"⟩, "loc"⟩).exchangePosted
      = true := by
  simp [githubCallback, c3State_decodes, ghAfterDecode, jsGet, c3Json, jsTruthy,
    fetchUpstreamAuthToken]

/-- C3 (amended): `GET /callback` with no state answers HTTP 400 and never
attempts the exchange; the primary callback posts the exchange exactly
when the state is present and decodable (directly or after one
percent-decoding reversal) with a truthy clientId and a code parameter is
present — regardless of any error parameter; the secondary callback calls
its exchange exactly when the provider reported no error, both code and
state are present, and the state nonce is found in the store. -/
theorem c3_exchange_gating (req : GhReq) (env : GhEnv)
    (mreq : MsReq) (menv : MsEnv) (now : Int) (kv : Store) :
    (req.state = none →
      githubCallback req env = ⟨GhResp.missingState, false⟩ ∧
      GhResp.status (githubCallback req env).resp = 400) ∧
    ((githubCallback req env).exchangePosted = true ↔
      ∃ st j, req.state = some st ∧ decodeWithRetry st = some j ∧
        clientIdOk j = true ∧ req.code ≠ none) ∧
    ((∃ c, MsEvent.exchangeReq c ∈ (microsoftCallback mreq menv now kv).events) ↔
      mreq.error = none ∧ ∃ c st v, mreq.code = some c ∧ mreq.state = some st ∧
        kv (stateKey st) = some v) := by
  refine ⟨?_, ?_, ?_⟩
  · intro hnone
    have hout : githubCallback req env = ⟨GhResp.missingState, false⟩ := by
      simp [githubCallback, hnone]
    exact ⟨hout, by rw [hout]; rfl⟩
  · cases hstq : req.state with
    | none =>
      simp only [githubCallback, hstq]
      constructor
      · intro hfalse
        cases hfalse
      · rintro ⟨st, j, hst, -, -, -⟩
        cases hst
    | some st =>
      rw [githubCallback_ladder req env st hstq]
      cases hdr : decodeWithRetry st with
      | none =>
        simp only []
        constructor
        · intro hfalse
          cases hfalse
        · rintro ⟨st2, j, hst2, hdr2, -, -⟩
          injection hst2 with he
          subst he
          rw [hdr] at hdr2
          cases hdr2
      | some j =>
        simp only [ghAfterDecode]
        cases hga : jsGet j "clientId" with
        | none =>
          constructor
          · intro hfalse
            cases hfalse
          · rintro ⟨st2, j2, hst2, hdr2, htr2, -⟩
            injection hst2 with he
            subst he
            rw [hdr] at hdr2
            injection hdr2 with he2
            subst he2
            simp only [clientIdOk, hga] at htr2
            cases htr2
        | some v =>
          dsimp only
          cases htv : jsTruthy v with
          | false =>
            simp only [if_pos rfl]
            constructor
            · intro hfalse
              cases hfalse
            · rintro ⟨st2, j2, hst2, hdr2, htr2, -⟩
              injection hst2 with he
              subst he
              rw [hdr] at hdr2
              injection hdr2 with he2
              subst he2
              simp only [clientIdOk, hga, htv] at htr2
              cases htr2
          | true =>
            rw [if_neg (by decide : ¬(true = false))]
            have hok : clientIdOk j = true := by
              simp only [clientIdOk, hga]
              exact htv
            cases hcode : req.code with
            | none =>
              simp only [fetchUpstreamAuthToken]
              constructor
              · intro hfalse
                cases hfalse
              · rintro ⟨st2, j2, hst2, hdr2, htr2, hcode2⟩
                exact absurd rfl hcode2
            | some c =>
              cases hnet : env.net with
              | ok tok =>
                simp only [fetchUpstreamAuthToken]
                cases hu : env.user with
                | error m =>
                  refine ⟨fun _ => ⟨st, j, ?_, hdr, hok, ?_⟩, fun _ => ?_⟩ <;> simp
                | ok u =>
                  refine ⟨fun _ => ⟨st, j, ?_, hdr, hok, ?_⟩, fun _ => ?_⟩ <;> simp
              | httpError s b =>
                simp only [fetchUpstreamAuthToken]
                refine ⟨fun _ => ⟨st, j, ?_, hdr, hok, ?_⟩, fun _ => ?_⟩ <;> simp
  · cases herr : mreq.error with
    | some e =>
      simp only [microsoftCallback, herr]
      constructor
      · rintro ⟨c, hc⟩
        simp at hc
      · rintro ⟨hnone, -⟩
        cases hnone
    | none =>
      cases hcode : mreq.code with
      | none =>
        simp only [microsoftCallback, herr, hcode]
        constructor
        · rintro ⟨c, hc⟩
          simp at hc
        · rintro ⟨-, c, st, v, hc, -, -⟩
          cases hc
      | some c =>
        cases hstt : mreq.state with
        | none =>
          simp only [microsoftCallback, herr, hcode, hstt]
          constructor
          · rintro ⟨c2, hc⟩
            simp at hc
          · rintro ⟨-, c2, st, v, -, hst, -⟩
            cases hst
        | some st =>
          cases hkv : kv (stateKey st) with
          | none =>
            simp only [microsoftCallback, herr, hcode, hstt, hkv]
            constructor
            · rintro ⟨c2, hc⟩
              simp at hc
            · rintro ⟨-, c2, st2, v, hc2, hst2, hkv2⟩
              injection hc2 with he1
              injection hst2 with he2
              subst he1
              subst he2
              rw [hkv] at hkv2
              cases hkv2
          | some v =>
            refine ⟨fun _ => ⟨rfl, c, st, v, rfl, rfl, hkv⟩, fun _ => ⟨c, ?_⟩⟩
            simp only [microsoftCallback, herr, hcode, hstt, hkv]
            cases hnet : menv.net with
            | httpError s b => simp [exchangeCodeForToken]
            | success tr =>
              cases hg : menv.graph with
              | error m => simp [exchangeCodeForToken]
              | ok u => simp [exchangeCodeForToken]

/-- Witness for C3 (amended), at the stateless request of Scenario D and an
empty store. -/
theorem c3_exchange_gating_witness :
    githubCallback ⟨none, some "c", none⟩
        ⟨.ok "tok", .ok ⟨"login", "name", "mail"⟩, "loc"⟩
      = ⟨GhResp.missingState, false⟩ :=
  ((c3_exchange_gating ⟨none, some "c", none⟩
      ⟨.ok "tok", .ok ⟨"login", "name", "mail"⟩, "loc"⟩
      ⟨none, none, none, none⟩ ⟨"i", "s", "u", .httpError 500 "b", .error "g"⟩
      0 (fun _ => none)).1 rfl).1


/-- C4: a pending nonce is never usable twice: with no stored entry for
the presented nonce the callback renders the HTTP 500 error page, leaves
the store untouched and writes nothing; with a stored entry, the delete of
the nonce key is the very next effect after its read (before the
exchange), and the nonce key is absent from the final store. -/
theorem c4_nonce_single_use (req : MsReq) (env : MsEnv) (now : Int) (kv : Store)
    (c st : String) (herr : req.error = none) (hcode : req.code = some c)
    (hstate : req.state = some st) :
    (kv (stateKey st) = none →
      (microsoftCallback req env now kv).status = 500 ∧
      (microsoftCallback req env now kv).page
        = .errorPage "Invalid or expired state parameter" ∧
      (microsoftCallback req env now kv).store = kv ∧
      ∀ k ttl, MsEvent.kvPut k ttl ∉ (microsoftCallback req env now kv).events) ∧
    (∀ v, kv (stateKey st) = some v →
      (microsoftCallback req env now kv).events.take 2
        = [MsEvent.kvGet (stateKey st), MsEvent.kvDelete (stateKey st)] ∧
      (microsoftCallback req env now kv).store (stateKey st) = none) := by
  constructor
  · intro hkv
    simp only [microsoftCallback, herr, hcode, hstate, hkv]
    refine ⟨by trivial, by trivial, by trivial, ?_⟩
    intro k ttl hmem
    simp at hmem
  · intro v hkv
    simp only [microsoftCallback, herr, hcode, hstate, hkv]
    cases hnet : env.net with
    | httpError s b =>
      simp only [exchangeCodeForToken]
      exact ⟨by trivial, by simp [Store.del]⟩
    | success tr =>
      cases hg : env.graph with
      | error m =>
        simp only [exchangeCodeForToken]
        exact ⟨by trivial, by simp [Store.del]⟩
      | ok u =>
        simp only [exchangeCodeForToken]
        refine ⟨by trivial, ?_⟩
        simp [Store.put, Store.del, stateKey_ne_tokensKey st v.asStateUserId]

/-- Witness for C4, at an unknown nonce over the empty store. -/
theorem c4_nonce_single_use_witness :
    (microsoftCallback ⟨some "c", some "n", none, none⟩
        ⟨"i", "s", "u", .httpError 500 "b", .error "g"⟩ 0 (fun _ => none)).status
      = 500 :=
  ((c4_nonce_single_use ⟨some "c", some "n", none, none⟩
      ⟨"i", "s", "u", .httpError 500 "b", .error "g"⟩ 0 (fun _ => none)
      "c" "n" rfl rfl rfl).1 rfl).1

/-- C5: a stored token record whose expiry lies strictly more than five
minutes (300000 ms) in the future is returned unchanged, with no refresh
call, no store write and no log line. -/
theorem c5_fresh_token_passthrough (cid csec uid : String) (now now2 : Int)
    (net : ExchangeNet) (kv : Store) (t : TokenData)
    (hkv : kv (tokensKey uid) = some (.tokens t))
    (hfresh : t.expiresAt - now > 300000) :
    getMicrosoftTokens cid csec uid now now2 net kv
      = ⟨some ⟨t.accessToken, t.refreshToken, t.expiresAt⟩, kv, 0, []⟩ := by
  simp only [getMicrosoftTokens, hkv]
  cases hrt : t.refreshToken with
  | none => rfl
  | some rt =>
    dsimp only
    rw [if_neg]
    rintro ⟨-, hgt⟩
    omega

/-- Witness for C5 at a concrete fresh record. -/
theorem c5_fresh_token_passthrough_witness :
    getMicrosoftTokens "cid" "sec" "u" 0 0 (.httpError 500 "b")
        (fun k => if k = tokensKey "u"
          then some (.tokens ⟨"tok", some "rt", 400000, none⟩) else none)
      = ⟨some ⟨"tok", some "rt", 400000⟩,
          (fun k => if k = tokensKey "u"
            then some (.tokens ⟨"tok", some "rt", 400000, none⟩) else none),
          0, []⟩ :=
  c5_fresh_token_passthrough "cid" "sec" "u" 0 0 (.httpError 500 "b") _
    ⟨"tok", some "rt", 400000, none⟩ (by simp) (by decide)

/-- C10: the token record is written only after both the exchange and the
Graph lookup succeed; when either throws, the handler renders the 500
error page and the token store is unchanged, even though the nonce was
already deleted before the exchange; on success the record is written
under the token key of the owner. -/
theorem c10_write_after_both_succeed (req : MsReq) (env : MsEnv) (now : Int)
    (kv : Store) (c st : String) (v : StoredVal)
    (herr : req.error = none) (hcode : req.code = some c)
    (hstate : req.state = some st) (hkv : kv (stateKey st) = some v) :
    (∀ status body, env.net = .httpError status body →
      (microsoftCallback req env now kv).status = 500 ∧
      (microsoftCallback req env now kv).store = kv.del (stateKey st) ∧
      (∀ uid, (microsoftCallback req env now kv).store (tokensKey uid)
        = kv (tokensKey uid)) ∧
      (microsoftCallback req env now kv).store (stateKey st) = none) ∧
    (∀ tr msg, env.net = .success tr → env.graph = .error msg →
      (microsoftCallback req env now kv).status = 500 ∧
      (microsoftCallback req env now kv).store = kv.del (stateKey st) ∧
      (∀ uid, (microsoftCallback req env now kv).store (tokensKey uid)
        = kv (tokensKey uid)) ∧
      (microsoftCallback req env now kv).store (stateKey st) = none) ∧
    (∀ tr u, env.net = .success tr → env.graph = .ok u →
      (microsoftCallback req env now kv).store
        = (kv.del (stateKey st)).put (tokensKey v.asStateUserId)
            (.tokens ⟨tr.access_token, tr.refresh_token,
              now + tr.expires_in * 1000,
              some ⟨u.id, u.displayName, msEmailOf u⟩⟩)) := by
  refine ⟨?_, ?_, ?_⟩
  · intro status body hnet
    simp only [microsoftCallback, herr, hcode, hstate, hkv, hnet,
      exchangeCodeForToken]
    refine ⟨by trivial, by trivial, ?_, by simp [Store.del]⟩
    intro uid
    simp only [Store.del]
    rw [if_neg fun he => absurd he.symm (stateKey_ne_tokensKey st uid)]
  · intro tr msg hnet hg
    simp only [microsoftCallback, herr, hcode, hstate, hkv, hnet, hg,
      exchangeCodeForToken]
    refine ⟨by trivial, by trivial, ?_, by simp [Store.del]⟩
    intro uid
    simp only [Store.del]
    rw [if_neg fun he => absurd he.symm (stateKey_ne_tokensKey st uid)]
  · intro tr u hnet hg
    simp only [microsoftCallback, herr, hcode, hstate, hkv, hnet, hg,
      exchangeCodeForToken]

/-- Witness for C10 at a failing exchange over a one-nonce store. -/
theorem c10_write_after_both_succeed_witness :
    (microsoftCallback ⟨some "c", some "n", none, none⟩
        ⟨"i", "s", "u", .httpError 400 "bad", .error "g"⟩ 0
        (fun k => if k = stateKey "n" then some (.stateRec "user1") else none)).status
      = 500 :=
  (((c10_write_after_both_succeed ⟨some "c", some "n", none, none⟩
      ⟨"i", "s", "u", .httpError 400 "bad", .error "g"⟩ 0
      (fun k => if k = stateKey "n" then some (.stateRec "user1") else none)
      "c" "n" (.stateRec "user1") rfl rfl rfl (by simp)).1) 400 "bad" rfl).1


/-- Store of the C6 counterexample: one token record expiring at 200000,
inside the five-minute window of `now = 0`. -/
def c6Store : Store := fun k =>
  if k = tokensKey "u" then some (.tokens ⟨"tok", some "rt", 200000, none⟩)
  else none

/-- C6 counterexample: with the stored record expiring at 200000 and a
provider refresh response carrying `expires_in = 0` at time 0, the cache
makes its one refresh call but returns and persists a record whose
`expiresAt` is 0 — not strictly later than the stored 200000. -/
theorem c6_short_expiry_cex :
    (getMicrosoftTokens "cid" "sec" "u" 0 0
        (.success ⟨"tok2", none, 0, "Bearer", "scope"⟩) c6Store).refreshCalls = 1 ∧
    (getMicrosoftTokens "cid" "sec" "u" 0 0
        (.success ⟨"tok2", none, 0, "Bearer", "scope"⟩) c6Store).result
      = some ⟨"tok2", some "rt", 0⟩ ∧
    ¬((0 : Int) > 200000) :=
  ⟨rfl, rfl, by decide⟩

/-- C6 (amended): a stored record within the five-minute window with a
(truthy) refresh token triggers exactly one refresh call; the updated
record is persisted, carrying the prior refresh token forward when the
response omits one; and whenever the clock is monotone and the response
grants at least the five-minute margin (`expires_in ≥ 300` seconds), the
new `expiresAt` is strictly later than the stored one. -/
theorem c6_refresh_behavior (cid csec uid : String) (now now2 : Int)
    (net : ExchangeNet) (kv : Store) (t : TokenData) (rt : String)
    (nt : MsTokenResponse)
    (hkv : kv (tokensKey uid) = some (.tokens t))
    (hrt : t.refreshToken = some rt) (hrtne : rt ≠ "")
    (hwin : now > t.expiresAt - 300000)
    (hnet : net = .success nt) (hnorefresh : nt.refresh_token = none) :
    (getMicrosoftTokens cid csec uid now now2 net kv).refreshCalls = 1 ∧
    (getMicrosoftTokens cid csec uid now now2 net kv).result
      = some ⟨nt.access_token, some rt, now2 + nt.expires_in * 1000⟩ ∧
    (getMicrosoftTokens cid csec uid now now2 net kv).store
      = kv.put (tokensKey uid) (.tokens ⟨nt.access_token, some rt,
          now2 + nt.expires_in * 1000, t.userInfo⟩) ∧
    (now ≤ now2 → nt.expires_in ≥ 300 →
      now2 + nt.expires_in * 1000 > t.expiresAt) := by
  simp only [getMicrosoftTokens, hkv, hnet, hrt]
  rw [if_pos ⟨hrtne, hwin⟩]
  simp only [refreshMicrosoftToken, hnorefresh]
  refine ⟨by trivial, by trivial, by trivial, ?_⟩
  intro hmono hmin
  omega

/-- Witness for C6 (amended) at a concrete in-window record and a
3600-second refresh response. -/
theorem c6_refresh_behavior_witness :
    (getMicrosoftTokens "cid" "sec" "u" 0 0
        (.success ⟨"tok2", none, 3600, "Bearer", "scope"⟩) c6Store).refreshCalls
      = 1 ∧
    (getMicrosoftTokens "cid" "sec" "u" 0 0
        (.success ⟨"tok2", none, 3600, "Bearer", "scope"⟩) c6Store).result
      = some ⟨"tok2", some "rt", 3600000⟩ :=
  ⟨(c6_refresh_behavior "cid" "sec" "u" 0 0 _ c6Store
      ⟨"tok", some "rt", 200000, none⟩ "rt" ⟨"tok2", none, 3600, "Bearer", "scope"⟩
      (by simp [c6Store]) rfl (by decide) (by decide) rfl rfl).1,
   (c6_refresh_behavior "cid" "sec" "u" 0 0 _ c6Store
      ⟨"tok", some "rt", 200000, none⟩ "rt" ⟨"tok2", none, 3600, "Bearer", "scope"⟩
      (by simp [c6Store]) rfl (by decide) (by decide) rfl rfl).2.1⟩

/-- C7: when the refresh call fails, the cache swallows the failure: it
logs one line, performs no store write, and returns the stale stored
record unchanged (the return type carries no error at all). -/
theorem c7_refresh_failure_swallowed (cid csec uid : String) (now now2 : Int)
    (status : Nat) (body : String) (kv : Store) (t : TokenData) (rt : String)
    (hkv : kv (tokensKey uid) = some (.tokens t))
    (hrt : t.refreshToken = some rt) (hrtne : rt ≠ "")
    (hwin : now > t.expiresAt - 300000) :
    getMicrosoftTokens cid csec uid now now2 (.httpError status body) kv
      = ⟨some ⟨t.accessToken, t.refreshToken, t.expiresAt⟩, kv, 1,
          ["Failed to refresh Microsoft token: "
            ++ ("Token refresh failed: " ++ body)]⟩ := by
  simp only [getMicrosoftTokens, hkv, hrt]
  rw [if_pos ⟨hrtne, hwin⟩]
  simp only [refreshMicrosoftToken]

/-- Witness for C7 at a concrete in-window record. -/
theorem c7_refresh_failure_swallowed_witness :
    getMicrosoftTokens "cid" "sec" "u" 0 0 (.httpError 503 "unavailable") c6Store
      = ⟨some ⟨"tok", some "rt", 200000⟩, c6Store, 1,
          ["Failed to refresh Microsoft token: "
            ++ ("Token refresh failed: " ++ "unavailable")]⟩ :=
  c7_refresh_failure_swallowed "cid" "sec" "u" 0 0 503 "unavailable" c6Store
    ⟨"tok", some "rt", 200000, none⟩ "rt" (by simp [c6Store]) rfl (by decide)
    (by decide)

/-- Store of the C8 counterexample: a single pending nonce. -/
def c8Store : Store := fun k =>
  if k = stateKey "n" then some (.stateRec "u") else none

/-- C8 counterexample: a callback accepting a provider response with
`expires_in = 0` at time 12345 persists a token record whose `expiresAt`
equals the write time — not strictly greater. -/
theorem c8_expiry_not_strict_cex :
    (microsoftCallback ⟨some "c", some "n", none, none⟩
        ⟨"cid", "sec", "uri", .success ⟨"tok", none, 0, "Bearer", "s"⟩,
          .ok ⟨"id", "dn", "m", "upn"⟩⟩ 12345 c8Store).store (tokensKey "u")
      = some (.tokens ⟨"tok", none, 12345, some ⟨"id", "dn", "m"⟩⟩) ∧
    ¬((12345 : Int) > 12345) :=
  ⟨rfl, by decide⟩

/-- C8 (amended): every persisted token record carries
`expiresAt = Date.now() + expires_in * 1000` — at the callback write site
and at the refresh write site — and is strictly greater than the write
time exactly when the accepted response has `expires_in ≥ 1`. -/
theorem c8_expiry_formula
    (req : MsReq) (env : MsEnv) (now : Int) (kv : Store)
    (c st : String) (v : StoredVal) (tr : MsTokenResponse) (u : MsUserInfo)
    (herr : req.error = none) (hcode : req.code = some c)
    (hstate : req.state = some st) (hkv : kv (stateKey st) = some v)
    (hnet : env.net = .success tr) (hgraph : env.graph = .ok u)
    (cid csec uid : String) (rnow rnow2 : Int) (rkv : Store) (t : TokenData)
    (rt : String) (nt : MsTokenResponse)
    (hrkv : rkv (tokensKey uid) = some (.tokens t))
    (hrt : t.refreshToken = some rt) (hrtne : rt ≠ "")
    (hwin : rnow > t.expiresAt - 300000) :
    (∃ td, (microsoftCallback req env now kv).store (tokensKey v.asStateUserId)
        = some (.tokens td) ∧
      td.expiresAt = now + tr.expires_in * 1000 ∧
      (tr.expires_in ≥ 1 → td.expiresAt > now)) ∧
    (∃ td, (getMicrosoftTokens cid csec uid rnow rnow2 (.success nt) rkv).store
        (tokensKey uid) = some (.tokens td) ∧
      td.expiresAt = rnow2 + nt.expires_in * 1000 ∧
      (nt.expires_in ≥ 1 → td.expiresAt > rnow2)) := by
  constructor
  · refine ⟨⟨tr.access_token, tr.refresh_token, now + tr.expires_in * 1000,
      some ⟨u.id, u.displayName, msEmailOf u⟩⟩, ?_, rfl,
      by intro h; show now + tr.expires_in * 1000 > now; omega⟩
    simp only [microsoftCallback, herr, hcode, hstate, hkv, hnet, hgraph,
      exchangeCodeForToken]
    simp [Store.put]
  · simp only [getMicrosoftTokens, hrkv, hrt]
    rw [if_pos ⟨hrtne, hwin⟩]
    simp only [refreshMicrosoftToken]
    refine ⟨⟨nt.access_token,
      match nt.refresh_token with
      | some r => if r = "" then some rt else some r
      | none => some rt,
      rnow2 + nt.expires_in * 1000, t.userInfo⟩, ?_, rfl,
      by intro h; show rnow2 + nt.expires_in * 1000 > rnow2; omega⟩
    simp [Store.put]

/-- Witness for C8 (amended) at concrete inputs with a one-hour expiry. -/
theorem c8_expiry_formula_witness :
    ∃ td, (microsoftCallback ⟨some "c", some "n", none, none⟩
        ⟨"cid", "sec", "uri", .success ⟨"tok", none, 3600, "Bearer", "s"⟩,
          .ok ⟨"id", "dn", "m", "upn"⟩⟩ 1000 c8Store).store (tokensKey "u")
      = some (.tokens td) ∧
      td.expiresAt = 1000 + 3600 * 1000 ∧
      ((3600 : Int) ≥ 1 → td.expiresAt > 1000) :=
  (c8_expiry_formula ⟨some "c", some "n", none, none⟩
      ⟨"cid", "sec", "uri", .success ⟨"tok", none, 3600, "Bearer", "s"⟩,
        .ok ⟨"id", "dn", "m", "upn"⟩⟩ 1000 c8Store
      "c" "n" (.stateRec "u") ⟨"tok", none, 3600, "Bearer", "s"⟩
      ⟨"id", "dn", "m", "upn"⟩ rfl rfl rfl (by simp [c8Store]) rfl rfl
      "cid" "sec" "u" 0 0 c6Store ⟨"tok", some "rt", 200000, none⟩ "rt"
      ⟨"tok", none, 3600, "Bearer", "s"⟩ (by simp [c6Store]) rfl (by decide)
      (by decide)).1

/-- C9 counterexample: two upstream token-endpoint failures that differ
only in their HTTP status produce identical caller-visible failures — the
Microsoft exchange failure does not carry the upstream status. -/
theorem c9_status_dropped_cex :
    exchangeCodeForToken "cid" "sec" "code" "uri" (.httpError 400 "bad")
      = exchangeCodeForToken "cid" "sec" "code" "uri" (.httpError 503 "bad") ∧
    (400 : Nat) ≠ 503 :=
  ⟨rfl, by decide⟩

/-- C9 (amended): the Microsoft exchange and refresh failures carry the
upstream response body prefixed by a fixed message and are independent of
the client secret (no secret material can enter them), though not the
upstream HTTP status; the whole token cache is independent of the client
credentials, and its informational logging is either empty or the single
fixed-prefix line built from the upstream response body alone, so no
secret and no raw token value can appear in it; the (spec-modelled)
failure of the primary exchanger carries both the upstream status and
body. -/
theorem c9_failure_sanitized (cid cid2 sec sec2 code uri : String)
    (net : ExchangeNet) (status : Nat) (body : String)
    (uid : String) (now now2 : Int) (kv : Store) :
    exchangeCodeForToken cid sec code uri net
      = exchangeCodeForToken cid sec2 code uri net ∧
    exchangeCodeForToken cid sec code uri (.httpError status body)
      = .error ("Token exchange failed: " ++ body) ∧
    refreshMicrosoftToken cid sec code net
      = refreshMicrosoftToken cid sec2 code net ∧
    refreshMicrosoftToken cid sec code (.httpError status body)
      = .error ("Token refresh failed: " ++ body) ∧
    (∀ c, fetchUpstreamAuthToken (some c) (.httpError status body)
      = (.error ⟨status, body⟩, true)) ∧
    getMicrosoftTokens cid sec uid now now2 net kv
      = getMicrosoftTokens cid2 sec2 uid now now2 net kv ∧
    ((getMicrosoftTokens cid sec uid now now2 net kv).logs = [] ∨
      ∃ status2 body2, net = .httpError status2 body2 ∧
        (getMicrosoftTokens cid sec uid now now2 net kv).logs
          = ["Failed to refresh Microsoft token: "
              ++ ("Token refresh failed: " ++ body2)]) := by
  refine ⟨rfl, rfl, rfl, rfl, fun _ => rfl, rfl, ?_⟩
  cases hkv : kv (tokensKey uid) with
  | none =>
    refine Or.inl ?_
    simp only [getMicrosoftTokens, hkv]
  | some v =>
    cases v with
    | stateRec u2 =>
      refine Or.inl ?_
      simp only [getMicrosoftTokens, hkv]
    | tokens t =>
      cases hrt : t.refreshToken with
      | none =>
        refine Or.inl ?_
        simp only [getMicrosoftTokens, hkv, hrt]
      | some rt =>
        by_cases hc : rt ≠ "" ∧ now > t.expiresAt - 300000
        · cases net with
          | success tr =>
            refine Or.inl ?_
            simp only [getMicrosoftTokens, hkv, hrt]
            rw [if_pos hc]
            simp only [refreshMicrosoftToken]
          | httpError s2 b2 =>
            refine Or.inr ⟨s2, b2, rfl, ?_⟩
            simp only [getMicrosoftTokens, hkv, hrt]
            rw [if_pos hc]
            simp only [refreshMicrosoftToken]
        · refine Or.inl ?_
          simp only [getMicrosoftTokens, hkv, hrt]
          rw [if_neg hc]


end MCP
